import Mathlib

/-
Verification of the friend-recommendation graph engine
(redsocial/usuarios/graph_engine.py) against its specification.

The engine is embedded shallowly:

* The backing stores (Django User, Amistad and SolicitudAmistad tables)
  become an explicit environment value (Entorno).
* The GrafoSocial object state (the defaultdict of adjacency sets, its key
  set, and the _construido flag) becomes an explicit record; every method
  that may mutate the object is embedded in state-passing style, returning
  its result together with the resulting object state.  Reads performed
  with dict.get(k, set()) do not vivify keys, which the embedding reflects
  by returning the state unchanged.
* The FIFO queue of (node, level) pairs used by bfs_niveles and
  distancia_entre_usuarios dequeues nodes in nondecreasing level order and
  the visited-set discipline ensures each node is enqueued at most once, so
  the computation is level-synchronous; it is embedded as a recursion on
  the level index carrying the (frontier, visited) pair explicitly.
* Python ints become Int where negative values are observable (the -1
  unreachable sentinel, the limite parameter); node identifiers are Nat.
-/

namespace RedSocial

/-- Friendship-request states (SolicitudAmistad.ESTADO_CHOICES). -/
inductive Estado where
  | pendiente
  | aceptada
  | rechazada
deriving DecidableEq

/-- One SolicitudAmistad row: de_usuario_id, para_usuario_id, estado. -/
structure Solicitud where
  de : Nat
  para : Nat
  estado : Estado
deriving DecidableEq

/-- The backing stores read by the engine: the User table as (id, username)
pairs, the Amistad table as (usuario1_id, usuario2_id) pairs, and the
SolicitudAmistad table. -/
structure Entorno where
  users : List (Nat × String)
  amistades : List (Nat × Nat)
  solicitudes : List Solicitud

/-- State of a GrafoSocial object: the key set of the defaultdict
self.grafo, the adjacency read self.grafo.get(id, set()), and the
_construido flag. -/
structure GrafoSocial where
  keys : Finset Nat
  adj : Nat → Finset Nat
  construido : Bool

/-- GrafoSocial.__init__: empty adjacency, not built. -/
def grafoVacio : GrafoSocial := ⟨∅, fun _ => ∅, false⟩

/-- self.grafo[a].add(b): store b in the adjacency set of a. -/
def addArista (g : Nat → Finset Nat) (a b : Nat) : Nat → Finset Nat :=
  fun x => if x = a then insert b (g a) else g x

/-- The adjacency produced by the edge loop of construir_grafo: for each
amistad row, usuario2 is added to adjacency of usuario1 and vice versa. -/
def construirAdj (amistades : List (Nat × Nat)) : Nat → Finset Nat :=
  amistades.foldl (fun g p => addArista (addArista g p.1 p.2) p.2 p.1)
    (fun _ => ∅)

/-- GrafoSocial.construir_grafo: clears the map, touches every user id so
it exists as a key, inserts both directions of every amistad (which also
creates the endpoint keys), and sets _construido.  The result does not
depend on the prior object state. -/
def construir_grafo (env : Entorno) (_g : GrafoSocial) : GrafoSocial :=
  { keys := (env.users.map Prod.fst).toFinset ∪
      (env.amistades.map Prod.fst).toFinset ∪
      (env.amistades.map Prod.snd).toFinset
    adj := construirAdj env.amistades
    construido := true }

/-- The auto-build guard shared by every query: if not self._construido,
self.construir_grafo() first. -/
def asegurarConstruido (env : Entorno) (g : GrafoSocial) : GrafoSocial :=
  if g.construido then g else construir_grafo env g

/-- GrafoSocial.obtener_amigos: auto-build, then self.grafo.get(id, set()).
Returns the result together with the object state after the call. -/
def obtener_amigos (env : Entorno) (g₀ : GrafoSocial) (usuario : Nat) :
    Finset Nat × GrafoSocial :=
  let g := asegurarConstruido env g₀
  (g.adj usuario, g)

/-- All neighbors of a set of nodes: one BFS expansion step. -/
def vecindario (adj : Nat → Finset Nat) (s : Finset Nat) : Finset Nat :=
  s.biUnion adj

/-- One level of BFS expansion on a (frontier, visited) pair: the new
frontier is every not-yet-visited neighbor of the current frontier, and all
of them are marked visited (the enqueue-time visited-set discipline). -/
def bfsPaso (adj : Nat → Finset Nat) :
    Finset Nat × Finset Nat → Finset Nat × Finset Nat :=
  fun fv => (vecindario adj fv.1 \ fv.2, fv.2 ∪ (vecindario adj fv.1 \ fv.2))

/-- The (frontier, visited) pair after n BFS levels from an origin; level 0
is the pre-seeded state ({origin}, {origin}). -/
def bfsEstado (adj : Nat → Finset Nat) (origen : Nat) :
    Nat → Finset Nat × Finset Nat
  | 0 => ({origen}, {origen})
  | n + 1 => bfsPaso adj (bfsEstado adj origen n)

/-- The niveles defaultdict produced by bfs_niveles: nodes first discovered
at level l.  Entries are created only for 1 ≤ l ≤ nivel_maximo (a node at
level nivel_maximo is dequeued but not expanded); every other index reads
as the empty set, matching niveles.get(l, set()). -/
def nivelBFS (adj : Nat → Finset Nat) (origen : Nat)
    (nivel_maximo : Nat) (l : Nat) : Finset Nat :=
  if 1 ≤ l ∧ l ≤ nivel_maximo then (bfsEstado adj origen l).1 else ∅

/-- GrafoSocial.bfs_niveles: auto-build, then BFS from the origin to the
given maximum level, returning the level map and the object state. -/
def bfs_niveles (env : Entorno) (g₀ : GrafoSocial)
    (usuario : Nat) (nivel_maximo : Nat) :
    (Nat → Finset Nat) × GrafoSocial :=
  let g := asegurarConstruido env g₀
  (nivelBFS g.adj usuario nivel_maximo, g)

/-- GrafoSocial.amigos_en_comun: auto-build, then the intersection of the
two adjacency reads. -/
def amigos_en_comun (env : Entorno) (g₀ : GrafoSocial) (u1 u2 : Nat) :
    Finset Nat × GrafoSocial :=
  let g := asegurarConstruido env g₀
  (g.adj u1 ∩ g.adj u2, g)

/-- The BFS loop of distancia_entre_usuarios, level-synchronously: at the
frontier of nodes at distance d, every dequeued node scans its neighbors
and returns d+1 as soon as one of them is the destination (the destination
itself is never enqueued); otherwise the unvisited neighbors form the next
frontier.  The counter k is the number of levels the bound max_distancia
still allows to be expanded: nodes at distance ≥ max_distancia are dequeued
but skipped, so when k reaches 0 the queue can only drain, giving -1, and
the same happens when the frontier empties. -/
def distanciaAux (adj : Nat → Finset Nat) (destino : Nat) :
    Nat → Nat → Finset Nat → Finset Nat → Int
  | 0, _, _, _ => -1
  | k + 1, d, frontera, visitados =>
    if frontera = ∅ then -1
    else if destino ∈ vecindario adj frontera then (d : Int) + 1
    else distanciaAux adj destino k (d + 1)
      (vecindario adj frontera \ visitados)
      (visitados ∪ (vecindario adj frontera \ visitados))

/-- GrafoSocial.distancia_entre_usuarios: auto-build; 0 when origin equals
destination, otherwise BFS bounded by max_distancia, -1 when the
destination is not found within the bound. -/
def distancia_entre_usuarios (env : Entorno) (g₀ : GrafoSocial)
    (origen destino : Nat) (max_distancia : Nat) : Int × GrafoSocial :=
  let g := asegurarConstruido env g₀
  if origen = destino then (0, g)
  else (distanciaAux g.adj destino max_distancia 0 {origen} {origen}, g)

/-- The dict returned by MotorRecomendaciones.calcular_puntuacion. -/
structure Puntuacion where
  puntuacion : Int
  amigos_comun : Finset Nat
  num_amigos_comun : Nat
  distancia : Int
deriving DecidableEq

/-- MotorRecomendaciones.calcular_puntuacion: common friends, distance with
the default bound max_distancia = 5, then 10 points per common friend plus
5 for distance 2, 2 for distance 3, 1 for distance strictly above 3. -/
def calcular_puntuacion (env : Entorno) (g₀ : GrafoSocial)
    (usuario candidato : Nat) : Puntuacion × GrafoSocial :=
  let ac := amigos_en_comun env g₀ usuario candidato
  let dc := distancia_entre_usuarios env ac.2 usuario candidato 5
  let bono : Int :=
    if dc.1 = 2 then 5 else if dc.1 = 3 then 2 else if 3 < dc.1 then 1 else 0
  (⟨10 * ac.1.card + bono, ac.1, ac.1.card, dc.1⟩, dc.2)

/-- The set of all known user ids,
User.objects.values_list('id', flat=True). -/
def todosUsuarios (env : Entorno) : Finset Nat :=
  (env.users.map Prod.fst).toFinset

/-- Ids with a pending request sent by the user (de_usuario = user,
estado = 'pendiente'). -/
def solicitudesEnviadas (env : Entorno) (u : Nat) : Finset Nat :=
  (env.solicitudes.toFinset.filter
    (fun s => s.de = u ∧ s.estado = Estado.pendiente)).image Solicitud.para

/-- Ids with a pending request received by the user (para_usuario = user,
estado = 'pendiente'). -/
def solicitudesRecibidas (env : Entorno) (u : Nat) : Finset Nat :=
  (env.solicitudes.toFinset.filter
    (fun s => s.para = u ∧ s.estado = Estado.pendiente)).image Solicitud.de

/-- The primary candidate pool of obtener_recomendaciones: the union of BFS
levels 2, 3 and 4 from the user. -/
def candidatosBase (adj : Nat → Finset Nat) (u : Nat) : Finset Nat :=
  nivelBFS adj u 4 2 ∪ nivelBFS adj u 4 3 ∪ nivelBFS adj u 4 4

/-- The pool after the sparsity fallback: when the primary pool has fewer
than limite entries, every known user except the direct friends, the user
itself and the ids already collected is added. -/
def candidatosAmpliados (env : Entorno) (adj : Nat → Finset Nat)
    (u : Nat) (limite : Int) : Finset Nat :=
  let base := candidatosBase adj u
  if (base.card : Int) < limite then
    base ∪ (((todosUsuarios env \ adj u) \ {u}) \ base)
  else base

/-- The pool after removing candidates with a pending request in either
direction. -/
def candidatosFinales (env : Entorno) (adj : Nat → Finset Nat)
    (u : Nat) (limite : Int) : Finset Nat :=
  (candidatosAmpliados env adj u limite \ solicitudesEnviadas env u) \
    solicitudesRecibidas env u

/-- User.objects.get(id=..).username as an option:
none models User.DoesNotExist. -/
def resolverNombre (env : Entorno) (idn : Nat) : Option String :=
  (env.users.find? (fun p => p.1 == idn)).map Prod.snd

/-- The elements of a multiset of ids listed in ascending order, computed
with a structurally recursive insertion sort.  Python iterates sets in an
unspecified order; the embedding fixes ascending id order. -/
def listaAscMultiset (s : Multiset Nat) : List Nat :=
  Quotient.lift (fun l : List Nat => l.insertionSort (· ≤ ·))
    (fun a b h => List.eq_of_perm_of_sorted
      (((a.perm_insertionSort (· ≤ ·)).trans h).trans
        (b.perm_insertionSort (· ≤ ·)).symm)
      (a.sorted_insertionSort (· ≤ ·)) (b.sorted_insertionSort (· ≤ ·))) s

/-- The elements of a finite set of ids listed in ascending order. -/
def listaAsc (s : Finset Nat) : List Nat :=
  listaAscMultiset s.val

/-- Display names of at most 3 common friends, skipping ids that fail to
resolve (the best-effort enrichment loop). -/
def nombresAmigosComun (env : Entorno) (amigos : Finset Nat) : List String :=
  ((listaAsc amigos).take 3).filterMap (resolverNombre env)

/-- One entry of the recommendation list: the candidate user (id and
username), the score data and the resolved common-friend names. -/
structure Recomendacion where
  usuario : Nat
  username : String
  puntuacion : Int
  num_amigos_comun : Nat
  amigos_comun_nombres : List String
  distancia : Int
deriving DecidableEq

/-- Python list slicing lst[:k] for an Int bound: a nonnegative k keeps the
first k entries, a negative k drops the last -k entries. -/
def pySlice {α : Type} (l : List α) (k : Int) : List α :=
  if 0 ≤ k then l.take k.toNat else l.take (l.length - (-k).toNat)

/-- recomendaciones.sort(key=score, reverse=True): a stable sort by
descending puntuacion (insertion sort is stable, so this is extensionally
the list Python's stable sort produces for the same input order). -/
def ordenarPorPuntuacion (l : List Recomendacion) : List Recomendacion :=
  l.insertionSort (fun a b => b.puntuacion ≤ a.puntuacion)

/-- One iteration of the candidate loop of obtener_recomendaciones: the
candidate is skipped (User.DoesNotExist) when its user row is missing,
otherwise one record is built from calcular_puntuacion and the resolved
common-friend names. -/
def entradaRecomendacion (env : Entorno) (g : GrafoSocial) (u c : Nat) :
    Option Recomendacion :=
  match resolverNombre env c with
  | none => none
  | some nombre =>
    let datos := (calcular_puntuacion env g u c).1
    some ⟨c, nombre, datos.puntuacion, datos.num_amigos_comun,
      nombresAmigosComun env datos.amigos_comun, datos.distancia⟩

/-- MotorRecomendaciones.obtener_recomendaciones on a fresh motor: rebuild
the graph, collect candidates from BFS levels 2-4, widen the pool when it
is smaller than limite, drop candidates with pending requests, build one
record per candidate that still exists in the user store (iterating the
candidate set in ascending id order), sort by descending score and slice to
limite. -/
def obtener_recomendaciones (env : Entorno) (usuario : Nat)
    (limite : Int) : List Recomendacion :=
  let g := construir_grafo env grafoVacio
  let cands := candidatosFinales env g.adj usuario limite
  let recomendaciones :=
    (listaAsc cands).filterMap (entradaRecomendacion env g usuario)
  pySlice (ordenarPorPuntuacion recomendaciones) limite

/-- The dict returned by obtener_estadisticas_grafo. -/
structure Estadisticas where
  amigos_directos : Nat
  nivel_2 : Nat
  nivel_3 : Nat
  nivel_4 : Nat
  total_usuarios : Nat
  alcance : Nat
deriving DecidableEq

/-- MotorRecomendaciones.obtener_estadisticas_grafo on a fresh motor:
rebuild the graph, BFS to level 4, report the level sizes, the number of
keys of the adjacency map, and the total reach (sum of the sizes of the
populated levels; empty levels have no key and contribute nothing). -/
def obtener_estadisticas_grafo (env : Entorno) (usuario : Nat) :
    Estadisticas :=
  let g := construir_grafo env grafoVacio
  let niveles := nivelBFS g.adj usuario 4
  { amigos_directos := (g.adj usuario).card
    nivel_2 := (niveles 2).card
    nivel_3 := (niveles 3).card
    nivel_4 := (niveles 4).card
    total_usuarios := g.keys.card
    alcance := (niveles 1).card + (niveles 2).card + (niveles 3).card +
      (niveles 4).card }

/-
Specification-side notions: walks and shortest-path distance in the
adjacency structure, used to state the BFS claims.
-/

/-- A walk of a given length along the adjacency structure. -/
inductive Steps (adj : Nat → Finset Nat) : Nat → Nat → Nat → Prop where
  | refl (u : Nat) : Steps adj u u 0
  | tail {u v w : Nat} {n : Nat} :
      Steps adj u v n → w ∈ adj v → Steps adj u w (n + 1)

/-- The shortest-path distance from u to v is d: some walk of length d
exists and no shorter walk does. -/
def HasDist (adj : Nat → Finset Nat) (u v : Nat) (d : Nat) : Prop :=
  Steps adj u v d ∧ ∀ e, Steps adj u v e → d ≤ e

/-- The ball of radius n around an origin: nodes reachable by a walk of
length at most n. -/
def bola (adj : Nat → Finset Nat) (origen : Nat) : Nat → Finset Nat
  | 0 => {origen}
  | n + 1 => bola adj origen n ∪ vecindario adj (bola adj origen n)

/-
Concrete environments used to witness the theorems and to exhibit
counterexamples.
-/

/-- Three users in a line: 0 - 1 - 2. -/
def entornoLineal : Entorno :=
  ⟨[(0, "u0"), (1, "u1"), (2, "u2")], [(0, 1), (1, 2)], []⟩

/-- Seven users in a path: 0 - 1 - 2 - 3 - 4 - 5 - 6, so user 6 is at
shortest-path distance 6 from user 0. -/
def entornoCamino7 : Entorno :=
  ⟨[(0, "a"), (1, "b"), (2, "c"), (3, "d"), (4, "e"), (5, "f"), (6, "g")],
   [(0, 1), (1, 2), (2, 3), (3, 4), (4, 5), (5, 6)], []⟩

/-- Four users, user 1 friends with everyone else: two candidates at
distance 2 from user 0. -/
def entornoEstrella : Entorno :=
  ⟨[(0, "a"), (1, "b"), (2, "c"), (3, "d")], [(0, 1), (1, 2), (1, 3)], []⟩

/-- Two isolated users 1 and 2; the id 0 does not exist in the store. -/
def entornoSinOrigen : Entorno :=
  ⟨[(1, "a"), (2, "b")], [], []⟩

end RedSocial

namespace RedSocial

theorem mem_vecindario {adj : Nat → Finset Nat} {s : Finset Nat} {v : Nat} :
    v ∈ vecindario adj s ↔ ∃ x, x ∈ s ∧ v ∈ adj x := by
  simp [vecindario]

theorem vecindario_mono {adj : Nat → Finset Nat} {s t : Finset Nat}
    (h : s ⊆ t) : vecindario adj s ⊆ vecindario adj t := by
  intro v hv
  rcases mem_vecindario.1 hv with ⟨x, hx, hvx⟩
  exact mem_vecindario.2 ⟨x, h hx, hvx⟩

theorem bola_succ (adj : Nat → Finset Nat) (o n : Nat) :
    bola adj o (n + 1) = bola adj o n ∪ vecindario adj (bola adj o n) := rfl

theorem bola_mono_succ {adj : Nat → Finset Nat} {o : Nat} (n : Nat) :
    bola adj o n ⊆ bola adj o (n + 1) := by
  rw [bola_succ]
  exact Finset.subset_union_left

theorem bola_mono {adj : Nat → Finset Nat} {o : Nat} {m n : Nat}
    (h : m ≤ n) : bola adj o m ⊆ bola adj o n := by
  induction h with
  | refl => exact fun v hv => hv
  | step _ ih => exact fun v hv => bola_mono_succ _ (ih hv)

theorem origen_mem_bola {adj : Nat → Finset Nat} {o : Nat} (n : Nat) :
    o ∈ bola adj o n :=
  bola_mono (Nat.zero_le n) (by simp [bola])

theorem steps_mem_bola {adj : Nat → Finset Nat} {o v : Nat} {m : Nat}
    (h : Steps adj o v m) : v ∈ bola adj o m := by
  induction h with
  | refl => simp [bola]
  | tail _ hw ih =>
    rw [bola_succ]
    exact Finset.mem_union_right _ (mem_vecindario.2 ⟨_, ih, hw⟩)

theorem bola_da_steps {adj : Nat → Finset Nat} {o : Nat} :
    ∀ n v, v ∈ bola adj o n → ∃ m, m ≤ n ∧ Steps adj o v m := by
  intro n
  induction n with
  | zero =>
    intro v hv
    simp [bola] at hv
    subst hv
    exact ⟨0, le_refl 0, Steps.refl _⟩
  | succ n ih =>
    intro v hv
    rw [bola_succ] at hv
    rcases Finset.mem_union.1 hv with hv | hv
    · rcases ih v hv with ⟨m, hm, hs⟩
      exact ⟨m, Nat.le_succ_of_le hm, hs⟩
    · rcases mem_vecindario.1 hv with ⟨x, hx, hvx⟩
      rcases ih x hx with ⟨m, hm, hs⟩
      exact ⟨m + 1, Nat.succ_le_succ hm, Steps.tail hs hvx⟩

theorem mem_bola_iff {adj : Nat → Finset Nat} {o v : Nat} (n : Nat) :
    v ∈ bola adj o n ↔ ∃ m, m ≤ n ∧ Steps adj o v m := by
  constructor
  · exact bola_da_steps n v
  · rintro ⟨m, hm, hs⟩
    exact bola_mono hm (steps_mem_bola hs)

theorem bola_stab {adj : Nat → Finset Nat} {o n : Nat}
    (h : bola adj o (n + 1) ⊆ bola adj o n) :
    ∀ m, bola adj o (n + m) = bola adj o n := by
  intro m
  induction m with
  | zero => rfl
  | succ m ih =>
    apply Finset.Subset.antisymm
    · rw [show n + (m + 1) = (n + m) + 1 from rfl, bola_succ, ih]
      intro v hv
      rcases Finset.mem_union.1 hv with hv | hv
      · exact hv
      · apply h
        rw [bola_succ]
        exact Finset.mem_union_right _ hv
    · rw [show n + (m + 1) = (n + m) + 1 from rfl]
      exact fun v hv => bola_mono_succ _ (ih ▸ hv)

theorem frontera_sucesora {adj : Nat → Finset Nat} {o : Nat} (n : Nat) :
    vecindario adj (bola adj o (n + 1) \ bola adj o n) \ bola adj o (n + 1) =
      bola adj o (n + 2) \ bola adj o (n + 1) := by
  apply Finset.Subset.antisymm
  · intro v hv
    rcases Finset.mem_sdiff.1 hv with ⟨hv1, hv2⟩
    refine Finset.mem_sdiff.2 ⟨?_, hv2⟩
    rw [bola_succ]
    exact Finset.mem_union_right _
      (vecindario_mono Finset.sdiff_subset hv1)
  · intro v hv
    rcases Finset.mem_sdiff.1 hv with ⟨hv1, hv2⟩
    rw [bola_succ] at hv1
    rcases Finset.mem_union.1 hv1 with hv1 | hv1
    · exact absurd hv1 hv2
    · rcases mem_vecindario.1 hv1 with ⟨x, hx, hvx⟩
      refine Finset.mem_sdiff.2 ⟨mem_vecindario.2 ⟨x, ?_, hvx⟩, hv2⟩
      refine Finset.mem_sdiff.2 ⟨hx, fun hxn => hv2 ?_⟩
      rw [bola_succ]
      exact Finset.mem_union_right _ (mem_vecindario.2 ⟨x, hxn, hvx⟩)

theorem bfsEstado_spec (adj : Nat → Finset Nat) (o : Nat) : ∀ n : Nat,
    (bfsEstado adj o n).2 = bola adj o n ∧
      (bfsEstado adj o (n + 1)).1 = bola adj o (n + 1) \ bola adj o n := by
  intro n
  induction n with
  | zero =>
    constructor
    · rfl
    · show vecindario adj {o} \ {o} = bola adj o 1 \ bola adj o 0
      rw [bola_succ]
      show vecindario adj (bola adj o 0) \ bola adj o 0 = _
      apply Finset.Subset.antisymm
      · intro v hv
        rcases Finset.mem_sdiff.1 hv with ⟨hv1, hv2⟩
        exact Finset.mem_sdiff.2 ⟨Finset.mem_union_right _ hv1, hv2⟩
      · intro v hv
        rcases Finset.mem_sdiff.1 hv with ⟨hv1, hv2⟩
        rcases Finset.mem_union.1 hv1 with hv1 | hv1
        · exact absurd hv1 hv2
        · exact Finset.mem_sdiff.2 ⟨hv1, hv2⟩
  | succ n ih =>
    have hvis : (bfsEstado adj o (n + 1)).2 = bola adj o (n + 1) := by
      show ((bfsEstado adj o n).2 ∪
        (vecindario adj (bfsEstado adj o n).1 \ (bfsEstado adj o n).2)) = _
      have hfr : vecindario adj (bfsEstado adj o n).1 \ (bfsEstado adj o n).2 =
          bola adj o (n + 1) \ bola adj o n := by
        have := ih.2
        show (bfsEstado adj o (n + 1)).1 = _
        exact this
      rw [hfr, ih.1]
      exact Finset.union_sdiff_of_subset (bola_mono_succ n)
    refine ⟨hvis, ?_⟩
    show vecindario adj (bfsEstado adj o (n + 1)).1 \ (bfsEstado adj o (n + 1)).2 = _
    rw [ih.2, hvis]
    exact frontera_sucesora n

end RedSocial

namespace RedSocial

theorem steps_cero {adj : Nat → Finset Nat} {u v : Nat}
    (h : Steps adj u v 0) : v = u := by
  cases h
  rfl

theorem hasdist_unique {adj : Nat → Finset Nat} {o v : Nat} {d e : Nat}
    (h1 : HasDist adj o v d) (h2 : HasDist adj o v e) : d = e :=
  Nat.le_antisymm (h1.2 e h2.1) (h2.2 d h1.1)

theorem hasdist_ne_origen {adj : Nat → Finset Nat} {o v : Nat} {d : Nat}
    (h : HasDist adj o v d) (hd : 1 ≤ d) : v ≠ o := by
  intro hv
  subst hv
  have := h.2 0 (Steps.refl _)
  omega

theorem hasdist_succ_iff {adj : Nat → Finset Nat} {o v : Nat} (m : Nat) :
    HasDist adj o v (m + 1) ↔
      v ∈ bola adj o (m + 1) ∧ v ∉ bola adj o m := by
  constructor
  · intro h
    refine ⟨steps_mem_bola h.1, fun hv => ?_⟩
    rcases bola_da_steps m v hv with ⟨e, he, hs⟩
    have := h.2 e hs
    omega
  · rintro ⟨h1, h2⟩
    rcases bola_da_steps (m + 1) v h1 with ⟨e, he, hs⟩
    have hmin : ∀ f, Steps adj o v f → m + 1 ≤ f := by
      intro f hf
      by_contra hlt
      push_neg at hlt
      exact h2 (bola_mono (by omega) (steps_mem_bola hf))
    have heq : e = m + 1 := Nat.le_antisymm he (hmin e hs)
    exact ⟨heq ▸ hs, hmin⟩

theorem primer_nivel {adj : Nat → Finset Nat} {o v : Nat} {n : Nat}
    (hv : v ∈ bola adj o n) (hvo : v ≠ o) :
    ∃ m, m + 1 ≤ n ∧ HasDist adj o v (m + 1) := by
  induction n with
  | zero =>
    simp [bola] at hv
    exact absurd hv hvo
  | succ n ih =>
    by_cases hvn : v ∈ bola adj o n
    · rcases ih hvn with ⟨m, hm, hd⟩
      exact ⟨m, by omega, hd⟩
    · exact ⟨n, le_refl _, (hasdist_succ_iff n).2 ⟨hv, hvn⟩⟩

theorem nivelBFS_fuera {adj : Nat → Finset Nat} {o k l : Nat}
    (h : ¬(1 ≤ l ∧ l ≤ k)) : nivelBFS adj o k l = ∅ := by
  simp only [nivelBFS, if_neg h]

theorem mem_nivelBFS {adj : Nat → Finset Nat} {o k v l : Nat}
    (h1 : 1 ≤ l) (h2 : l ≤ k) :
    v ∈ nivelBFS adj o k l ↔ HasDist adj o v l := by
  obtain ⟨m, rfl⟩ : ∃ m, l = m + 1 := ⟨l - 1, by omega⟩
  rw [nivelBFS, if_pos ⟨h1, h2⟩, (bfsEstado_spec adj o m).2,
    hasdist_succ_iff]
  exact Finset.mem_sdiff

/-- C3: for every origin and bound k, the level map returned by bfs_niveles
has pairwise disjoint level sets; for 1 <= l <= k, level l is exactly the
set of nodes whose shortest-path distance from the origin in the built
graph is l; the origin appears in no level; and a node whose shortest-path
distance exceeds k appears in no level. -/
theorem bfs_niveles_particion (env : Entorno) (g₀ : GrafoSocial)
    (o k : Nat) :
    (∀ l₁ l₂, l₁ ≠ l₂ → ∀ v, v ∈ (bfs_niveles env g₀ o k).1 l₁ →
      v ∉ (bfs_niveles env g₀ o k).1 l₂) ∧
    (∀ l, 1 ≤ l → l ≤ k → ∀ v,
      (v ∈ (bfs_niveles env g₀ o k).1 l ↔
        HasDist (bfs_niveles env g₀ o k).2.adj o v l)) ∧
    (∀ l, o ∉ (bfs_niveles env g₀ o k).1 l) ∧
    (∀ v d, HasDist (bfs_niveles env g₀ o k).2.adj o v d → k < d →
      ∀ l, v ∉ (bfs_niveles env g₀ o k).1 l) := by
  have hfst : (bfs_niveles env g₀ o k).1 =
      nivelBFS (asegurarConstruido env g₀).adj o k := rfl
  have hsnd : (bfs_niveles env g₀ o k).2 = asegurarConstruido env g₀ := rfl
  rw [hfst, hsnd]
  set adj := (asegurarConstruido env g₀).adj with hadj
  have hmem : ∀ l v, v ∈ nivelBFS adj o k l →
      1 ≤ l ∧ l ≤ k ∧ HasDist adj o v l := by
    intro l v hv
    by_cases hb : 1 ≤ l ∧ l ≤ k
    · exact ⟨hb.1, hb.2, (mem_nivelBFS hb.1 hb.2).1 hv⟩
    · rw [nivelBFS_fuera hb] at hv
      exact absurd hv (Finset.not_mem_empty v)
  refine ⟨?_, ?_, ?_, ?_⟩
  · intro l₁ l₂ hne v h1 h2
    rcases hmem l₁ v h1 with ⟨_, _, hd1⟩
    rcases hmem l₂ v h2 with ⟨_, _, hd2⟩
    exact hne (hasdist_unique hd1 hd2)
  · intro l hl1 hl2 v
    exact mem_nivelBFS hl1 hl2
  · intro l ho
    rcases hmem l o ho with ⟨hl1, _, hd⟩
    exact hasdist_ne_origen hd hl1 rfl
  · intro v d hd hkd l hv
    rcases hmem l v hv with ⟨_, hlk, hdl⟩
    have := hasdist_unique hd hdl
    omega

end RedSocial

namespace RedSocial

theorem frontera_subconjunto {adj : Nat → Finset Nat} {o : Nat} (d : Nat) :
    (bfsEstado adj o d).1 ⊆ bola adj o d := by
  cases d with
  | zero => exact fun v hv => hv
  | succ m =>
    rw [(bfsEstado_spec adj o m).2]
    exact Finset.sdiff_subset

theorem frontera_vacia_estab {adj : Nat → Finset Nat} {o : Nat} {d : Nat}
    (hfr : (bfsEstado adj o d).1 = ∅) :
    ∀ n, d ≤ n → bola adj o n = bola adj o d := by
  cases d with
  | zero =>
    exfalso
    have : o ∈ (bfsEstado adj o 0).1 := by simp [bfsEstado]
    rw [hfr] at this
    exact Finset.not_mem_empty o this
  | succ m =>
    rw [(bfsEstado_spec adj o m).2] at hfr
    have hsub : bola adj o (m + 1) ⊆ bola adj o m := by
      intro v hv
      by_contra hvm
      have : v ∈ bola adj o (m + 1) \ bola adj o m :=
        Finset.mem_sdiff.2 ⟨hv, hvm⟩
      rw [hfr] at this
      exact Finset.not_mem_empty v this
    intro n hn
    have h1 := bola_stab hsub (n - m)
    have h2 := bola_stab hsub 1
    have hnm : m + (n - m) = n := by omega
    rw [hnm] at h1
    rw [h1, ← h2]

theorem distanciaAux_no_encontrado {adj : Nat → Finset Nat}
    {o destino : Nat} :
    ∀ k d, destino ∉ bola adj o (d + k) →
      distanciaAux adj destino k d (bfsEstado adj o d).1
        (bfsEstado adj o d).2 = -1 := by
  intro k
  induction k with
  | zero => intro d _; rfl
  | succ k ih =>
    intro d hd
    rw [distanciaAux]
    by_cases hfr : (bfsEstado adj o d).1 = ∅
    · rw [if_pos hfr]
    · rw [if_neg hfr]
      have hnin : destino ∉ vecindario adj (bfsEstado adj o d).1 := by
        intro hin
        apply hd
        apply bola_mono (show d + 1 ≤ d + (k + 1) by omega)
        rw [bola_succ]
        exact Finset.mem_union_right _
          (vecindario_mono (frontera_subconjunto d) hin)
      rw [if_neg hnin]
      have harg : distanciaAux adj destino k (d + 1)
          (vecindario adj (bfsEstado adj o d).1 \ (bfsEstado adj o d).2)
          ((bfsEstado adj o d).2 ∪
            (vecindario adj (bfsEstado adj o d).1 \ (bfsEstado adj o d).2)) =
          distanciaAux adj destino k (d + 1) (bfsEstado adj o (d + 1)).1
            (bfsEstado adj o (d + 1)).2 := rfl
      rw [harg]
      apply ih
      have : d + 1 + k = d + (k + 1) := by omega
      rw [this]
      exact hd

theorem distanciaAux_encontrado {adj : Nat → Finset Nat} {o destino : Nat} :
    ∀ k d j, 1 ≤ j → j ≤ k → destino ∈ bola adj o (d + j) →
      destino ∉ bola adj o (d + j - 1) → destino ∉ bola adj o d →
      distanciaAux adj destino k d (bfsEstado adj o d).1
        (bfsEstado adj o d).2 = ((d + j : Nat) : Int) := by
  intro k
  induction k with
  | zero => intro d j h1 h2 _ _ _; omega
  | succ k ih =>
    intro d j h1 h2 hmem hmem1 hd0
    rw [distanciaAux]
    by_cases hfr : (bfsEstado adj o d).1 = ∅
    · exfalso
      apply hd0
      rw [← frontera_vacia_estab hfr (d + j) (by omega)]
      exact hmem
    · rw [if_neg hfr]
      by_cases hin : destino ∈ vecindario adj (bfsEstado adj o d).1
      · rw [if_pos hin]
        have hd1 : destino ∈ bola adj o (d + 1) := by
          rw [bola_succ]
          exact Finset.mem_union_right _
            (vecindario_mono (frontera_subconjunto d) hin)
        have hj1 : j = 1 := by
          by_contra hj
          have : 2 ≤ j := by omega
          exact hmem1 (bola_mono (show d + 1 ≤ d + j - 1 by omega) hd1)
        subst hj1
        push_cast
        ring
      · rw [if_neg hin]
        have hj2 : 2 ≤ j := by
          by_contra hj
          have hj1 : j = 1 := by omega
          subst hj1
          have : destino ∈ bola adj o (d + 1) \ bola adj o d :=
            Finset.mem_sdiff.2 ⟨by simpa using hmem, hd0⟩
          rw [← (bfsEstado_spec adj o d).2] at this
          have harg : (bfsEstado adj o (d + 1)).1 =
              vecindario adj (bfsEstado adj o d).1 \ (bfsEstado adj o d).2 :=
            rfl
          rw [harg] at this
          exact hin (Finset.mem_sdiff.1 this).1
        have harg : distanciaAux adj destino k (d + 1)
            (vecindario adj (bfsEstado adj o d).1 \ (bfsEstado adj o d).2)
            ((bfsEstado adj o d).2 ∪
              (vecindario adj (bfsEstado adj o d).1 \
                (bfsEstado adj o d).2)) =
            distanciaAux adj destino k (d + 1) (bfsEstado adj o (d + 1)).1
              (bfsEstado adj o (d + 1)).2 := rfl
        rw [harg]
        have e1 : d + 1 + (j - 1) = d + j := by omega
        have e2 : d + 1 + (j - 1) - 1 = d + j - 1 := by omega
        have hd1 : destino ∉ bola adj o (d + 1) := fun hc =>
          hmem1 (bola_mono (show d + 1 ≤ d + j - 1 by omega) hc)
        have ih2 := ih (d + 1) (j - 1) (by omega) (by omega)
          (by rw [e1]; exact hmem) (by rw [e2]; exact hmem1) hd1
        rw [e1] at ih2
        exact ih2

end RedSocial

namespace RedSocial

theorem distancia_eq_hasdist (env : Entorno) (g₀ : GrafoSocial)
    {o X : Nat} {d : Nat} (maxd : Nat)
    (h : HasDist (asegurarConstruido env g₀).adj o X d)
    (h1 : 1 ≤ d) (h2 : d ≤ maxd) :
    (distancia_entre_usuarios env g₀ o X maxd).1 = (d : Int) := by
  have hXo : X ≠ o := hasdist_ne_origen h h1
  have hoX : ¬(o = X) := fun he => hXo he.symm
  show (if o = X then ((0 : Int), asegurarConstruido env g₀)
    else (distanciaAux (asegurarConstruido env g₀).adj X maxd 0 {o} {o},
      asegurarConstruido env g₀)).1 = (d : Int)
  rw [if_neg hoX]
  obtain ⟨m, rfl⟩ : ∃ m, d = m + 1 := ⟨d - 1, by omega⟩
  rcases (hasdist_succ_iff m).1 h with ⟨hm1, hm0⟩
  have h00 : X ∉ bola (asegurarConstruido env g₀).adj o 0 := by
    simp [bola, hXo]
  have := @distanciaAux_encontrado (asegurarConstruido env g₀).adj
    o X maxd 0 (m + 1) (by omega) h2
    (by simpa using hm1) (by simpa using hm0) h00
  simpa using this

theorem distancia_eq_inalcanzable (env : Entorno) (g₀ : GrafoSocial)
    {o X : Nat} (maxd : Nat) (hne : o ≠ X)
    (h : X ∉ bola (asegurarConstruido env g₀).adj o maxd) :
    (distancia_entre_usuarios env g₀ o X maxd).1 = -1 := by
  show (if o = X then ((0 : Int), asegurarConstruido env g₀)
    else (distanciaAux (asegurarConstruido env g₀).adj X maxd 0 {o} {o},
      asegurarConstruido env g₀)).1 = -1
  rw [if_neg hne]
  have := @distanciaAux_no_encontrado (asegurarConstruido env g₀).adj
    o X maxd 0 (by simpa using h)
  simpa using this

/-- C4: distancia_entre_usuarios returns 0 when origin and destination
coincide; otherwise it returns the (unique, hence smallest) level d at
which the destination appears in bfs_niveles with the same bound; and it
returns the sentinel -1 exactly when the destination appears in no level
up to the bound.  The early-exit implementation thus reads the level off
the full BFS result. -/
theorem distancia_coincide_con_niveles (env : Entorno) (g₀ : GrafoSocial)
    (o X : Nat) (maxd : Nat) :
    (o = X → (distancia_entre_usuarios env g₀ o X maxd).1 = 0) ∧
    (∀ d, 1 ≤ d → d ≤ maxd → X ∈ (bfs_niveles env g₀ o maxd).1 d →
      (∀ e, e < d → X ∉ (bfs_niveles env g₀ o maxd).1 e) →
      (distancia_entre_usuarios env g₀ o X maxd).1 = (d : Int)) ∧
    ((∀ d, d ≤ maxd → X ∉ (bfs_niveles env g₀ o maxd).1 d) → o ≠ X →
      (distancia_entre_usuarios env g₀ o X maxd).1 = -1) := by
  refine ⟨?_, ?_, ?_⟩
  · intro he
    show (if o = X then ((0 : Int), asegurarConstruido env g₀)
      else (distanciaAux (asegurarConstruido env g₀).adj X maxd 0 {o} {o},
        asegurarConstruido env g₀)).1 = 0
    rw [if_pos he]
  · intro d h1 h2 hX _
    have hd : HasDist (asegurarConstruido env g₀).adj o X d :=
      (mem_nivelBFS h1 h2).1 hX
    exact distancia_eq_hasdist env g₀ maxd hd h1 h2
  · intro hno hne
    apply distancia_eq_inalcanzable env g₀ maxd hne
    intro hmem
    have hXo : X ≠ o := fun he => hne he.symm
    rcases primer_nivel hmem hXo with ⟨m, hm, hdm⟩
    exact hno (m + 1) hm ((mem_nivelBFS (by omega) hm).2 hdm)

/-- Witness for C4 at a concrete graph: distance 0 on the diagonal and the
level read off the BFS for a node at distance 2. -/
theorem distancia_coincide_con_niveles_witness :
    (distancia_entre_usuarios entornoLineal grafoVacio 0 0 5).1 = 0 ∧
    (distancia_entre_usuarios entornoLineal grafoVacio 0 2 5).1 = 2 :=
  ⟨(distancia_coincide_con_niveles entornoLineal grafoVacio 0 0 5).1 rfl,
   (distancia_coincide_con_niveles entornoLineal grafoVacio 0 2 5).2.1 2
     (by decide) (by decide) (by decide) (by decide)⟩

end RedSocial

namespace RedSocial

theorem asegurar_construido_flag (env : Entorno) (g : GrafoSocial) :
    (asegurarConstruido env g).construido = true := by
  by_cases h : g.construido
  · simp [asegurarConstruido, h]
  · simp [asegurarConstruido, h, construir_grafo]

theorem asegurar_idem (env : Entorno) (g : GrafoSocial) :
    asegurarConstruido env (asegurarConstruido env g) =
      asegurarConstruido env g := by
  by_cases h : g.construido
  · simp [asegurarConstruido, h]
  · simp [asegurarConstruido, h, construir_grafo]

theorem distancia_fst (env : Entorno) (g₀ : GrafoSocial)
    (o X : Nat) (maxd : Nat) :
    (distancia_entre_usuarios env g₀ o X maxd).1 =
      if o = X then 0
      else distanciaAux (asegurarConstruido env g₀).adj X maxd 0 {o} {o} := by
  by_cases h : o = X <;> simp [distancia_entre_usuarios, h]

theorem distancia_estado (env : Entorno) (g₀ : GrafoSocial)
    (o X : Nat) (maxd : Nat) :
    (distancia_entre_usuarios env (asegurarConstruido env g₀) o X maxd).1 =
      (distancia_entre_usuarios env g₀ o X maxd).1 := by
  rw [distancia_fst, distancia_fst, asegurar_idem]

theorem calcular_puntuacion_campos (env : Entorno) (g₀ : GrafoSocial)
    (u c : Nat) :
    (calcular_puntuacion env g₀ u c).1 =
      ⟨10 * (((asegurarConstruido env g₀).adj u ∩
          (asegurarConstruido env g₀).adj c).card : Int) +
        (if (distancia_entre_usuarios env g₀ u c 5).1 = 2 then 5
         else if (distancia_entre_usuarios env g₀ u c 5).1 = 3 then 2
         else if 3 < (distancia_entre_usuarios env g₀ u c 5).1 then 1 else 0),
       (asegurarConstruido env g₀).adj u ∩ (asegurarConstruido env g₀).adj c,
       ((asegurarConstruido env g₀).adj u ∩
         (asegurarConstruido env g₀).adj c).card,
       (distancia_entre_usuarios env g₀ u c 5).1⟩ := by
  simp only [calcular_puntuacion, amigos_en_comun]
  simp only [distancia_estado]

theorem steps_ultimo {adj : Nat → Finset Nat} {u v : Nat} {n : Nat}
    (h : Steps adj u v n) : v = u ∨ ∃ w, v ∈ adj w := by
  cases h with
  | refl => exact Or.inl rfl
  | tail _ hw => exact Or.inr ⟨_, hw⟩

end RedSocial

namespace RedSocial

/-- C1 (amended): the stated score formula holds for candidates whose
shortest-path distance d from the user satisfies 2 <= d <= 5, the bound
used internally by calcular_puntuacion: the score is 10 per common friend
plus 5 when d = 2, 2 when d = 3 and 1 when 3 < d <= 5, and the result also
carries the common-friend set, its size and the distance d.  (For finite
distances above 5 the code reports the unreachable sentinel instead; see
the counterexample.) -/
theorem calcular_puntuacion_formula (env : Entorno) (g₀ : GrafoSocial)
    (u c : Nat) (d : Nat)
    (hd : HasDist (asegurarConstruido env g₀).adj u c d)
    (h2 : 2 ≤ d) (h5 : d ≤ 5) :
    (calcular_puntuacion env g₀ u c).1.puntuacion =
      10 * (((asegurarConstruido env g₀).adj u ∩
        (asegurarConstruido env g₀).adj c).card : Int) +
      (if d = 2 then 5 else if d = 3 then 2 else 1) ∧
    (calcular_puntuacion env g₀ u c).1.amigos_comun =
      (asegurarConstruido env g₀).adj u ∩ (asegurarConstruido env g₀).adj c ∧
    (calcular_puntuacion env g₀ u c).1.num_amigos_comun =
      ((asegurarConstruido env g₀).adj u ∩
        (asegurarConstruido env g₀).adj c).card ∧
    (calcular_puntuacion env g₀ u c).1.distancia = (d : Int) := by
  have hdist : (distancia_entre_usuarios env g₀ u c 5).1 = (d : Int) :=
    distancia_eq_hasdist env g₀ 5 hd (by omega) h5
  rw [calcular_puntuacion_campos, hdist]
  refine ⟨?_, rfl, rfl, rfl⟩
  interval_cases d <;> norm_num

/-- C1 counterexample: in the 7-user path graph, user 6 is at finite
shortest-path distance 6 (>= 2) from user 0 with 0 common friends, yet
calcular_puntuacion reports score 0 instead of 10*0 + 1 and reports
distance -1 instead of 6: the claimed formula fails for finite distances
beyond the internal bound 5. -/
theorem calcular_puntuacion_formula_cex :
    HasDist (asegurarConstruido entornoCamino7 grafoVacio).adj 0 6 6 ∧
    (calcular_puntuacion entornoCamino7 grafoVacio 0 6).1.num_amigos_comun
      = 0 ∧
    (calcular_puntuacion entornoCamino7 grafoVacio 0 6).1.puntuacion ≠
      10 * 0 + 1 ∧
    (calcular_puntuacion entornoCamino7 grafoVacio 0 6).1.distancia ≠ 6 := by
  refine ⟨?_, by decide, by decide, by decide⟩
  exact (hasdist_succ_iff 5).2 ⟨by decide, by decide⟩

/-- Witness for the amended C1 at a concrete input: user 2 is at distance 2
from user 0 in the 3-user line with one common friend, and the score is
10*1 + 5. -/
theorem calcular_puntuacion_formula_witness :
    (calcular_puntuacion entornoLineal grafoVacio 0 2).1.puntuacion =
      10 * (((asegurarConstruido entornoLineal grafoVacio).adj 0 ∩
        (asegurarConstruido entornoLineal grafoVacio).adj 2).card : Int) +
      (if 2 = 2 then 5 else if 2 = 3 then 2 else 1) :=
  (calcular_puntuacion_formula entornoLineal grafoVacio 0 2 2
    ((hasdist_succ_iff 1).2 ⟨by decide, by decide⟩)
    (by decide) (by decide)).1

/-- C5 (amended): a candidate that is unreachable within the distance
bound - that is, any candidate for which the internal distance call
returns the sentinel -1, whether truly disconnected or merely at finite
distance beyond the bound 5 - receives NO distance bonus: the bonus chain
tests -1 = 2, -1 = 3 and 3 < -1, all of which fail, so the reported
distance is -1 and the score is exactly 10 times the number of common
friends, not 10*m + 1. -/
theorem puntuacion_inalcanzable (env : Entorno) (g₀ : GrafoSocial)
    (u c : Nat)
    (h : (distancia_entre_usuarios env g₀ u c 5).1 = -1) :
    (calcular_puntuacion env g₀ u c).1.distancia = -1 ∧
    (calcular_puntuacion env g₀ u c).1.puntuacion =
      10 * (((asegurarConstruido env g₀).adj u ∩
        (asegurarConstruido env g₀).adj c).card : Int) := by
  rw [calcular_puntuacion_campos, h]
  exact ⟨rfl, by norm_num⟩

/-- C5 counterexample: users 1 and 2 exist but share no edge at all, so 2
is unreachable from 1; the code reports distance -1 and score 0, not the
claimed 10*0 + 1. -/
theorem puntuacion_inalcanzable_cex :
    (calcular_puntuacion entornoSinOrigen grafoVacio 1 2).1.distancia
      = -1 ∧
    (calcular_puntuacion entornoSinOrigen grafoVacio 1 2).1.num_amigos_comun
      = 0 ∧
    (calcular_puntuacion entornoSinOrigen grafoVacio 1 2).1.puntuacion ≠
      10 * 0 + 1 := by
  exact ⟨by decide, by decide, by decide⟩

/-- Witness for the amended C5 at a concrete input covering the
finite-but-beyond-the-bound case: in the 7-user path, user 6 is at finite
distance 6 from user 0, the internal distance call returns the sentinel -1,
and the score is the bare 10*m. -/
theorem puntuacion_inalcanzable_witness :
    (calcular_puntuacion entornoCamino7 grafoVacio 0 6).1.distancia
      = -1 ∧
    (calcular_puntuacion entornoCamino7 grafoVacio 0 6).1.puntuacion =
      10 * (((asegurarConstruido entornoCamino7 grafoVacio).adj 0 ∩
        (asegurarConstruido entornoCamino7 grafoVacio).adj 6).card : Int) :=
  puntuacion_inalcanzable entornoCamino7 grafoVacio 0 6 (by decide)

end RedSocial

namespace RedSocial

/-- Witness for C3 at a concrete graph: level 2 of the BFS from user 0
contains user 2 exactly when its distance is 2, and the origin is not in
level 1. -/
theorem bfs_niveles_particion_witness :
    (2 ∈ (bfs_niveles entornoLineal grafoVacio 0 4).1 2 ↔
      HasDist (bfs_niveles entornoLineal grafoVacio 0 4).2.adj 0 2 2) ∧
    (0 ∉ (bfs_niveles entornoLineal grafoVacio 0 4).1 1) :=
  ⟨(bfs_niveles_particion entornoLineal grafoVacio 0 4).2.1 2
      (by decide) (by decide) 2,
   (bfs_niveles_particion entornoLineal grafoVacio 0 4).2.2.1 1⟩

theorem mem_paso_arista (g : Nat → Finset Nat) (p : Nat × Nat) (a b : Nat) :
    b ∈ (addArista (addArista g p.1 p.2) p.2 p.1) a ↔
      b ∈ g a ∨ (a = p.1 ∧ b = p.2) ∨ (a = p.2 ∧ b = p.1) := by
  simp only [addArista]
  by_cases h1 : a = p.2 <;> by_cases h2 : a = p.1 <;>
    by_cases h3 : p.2 = p.1 <;>
    simp_all <;> tauto

theorem mem_foldl_aristas (l : List (Nat × Nat)) :
    ∀ (g₀ : Nat → Finset Nat) (a b : Nat),
      b ∈ (l.foldl (fun g p => addArista (addArista g p.1 p.2) p.2 p.1)
        g₀) a ↔ b ∈ g₀ a ∨ (a, b) ∈ l ∨ (b, a) ∈ l := by
  induction l with
  | nil =>
    intro g₀ a b
    simp
  | cons p l ih =>
    intro g₀ a b
    rw [List.foldl_cons, ih, mem_paso_arista]
    simp only [List.mem_cons, Prod.ext_iff]
    tauto

theorem mem_construirAdj (l : List (Nat × Nat)) (a b : Nat) :
    b ∈ construirAdj l a ↔ (a, b) ∈ l ∨ (b, a) ∈ l := by
  rw [construirAdj, mem_foldl_aristas]
  simp

theorem asegurar_de_construido (env : Entorno) {g : GrafoSocial}
    (h : g.construido = true) : asegurarConstruido env g = g := by
  simp [asegurarConstruido, h]

theorem construir_flag (env : Entorno) (g₀ : GrafoSocial) :
    (construir_grafo env g₀).construido = true := rfl

theorem distancia_snd (env : Entorno) (g₀ : GrafoSocial)
    (o X : Nat) (maxd : Nat) :
    (distancia_entre_usuarios env g₀ o X maxd).2 =
      asegurarConstruido env g₀ := by
  by_cases h : o = X <;> simp [distancia_entre_usuarios, h]

/-- C8: after construir_grafo, provided every stored friendship edge joins
two distinct users, the adjacency is symmetric and loop-free; consequently
obtener_amigos(a) never contains a and the distance from any user to
itself is 0. -/
theorem construir_grafo_simetrico (env : Entorno) (g₀ : GrafoSocial)
    (h : ∀ p ∈ env.amistades, p.1 ≠ p.2) :
    (∀ a b, b ∈ (construir_grafo env g₀).adj a ↔
      a ∈ (construir_grafo env g₀).adj b) ∧
    (∀ a, a ∉ (construir_grafo env g₀).adj a) ∧
    (∀ a, a ∉ (obtener_amigos env (construir_grafo env g₀) a).1) ∧
    (∀ a maxd,
      (distancia_entre_usuarios env (construir_grafo env g₀) a a maxd).1 =
        0) := by
  have hadj : (construir_grafo env g₀).adj = construirAdj env.amistades :=
    rfl
  have hnoloop : ∀ a, a ∉ (construir_grafo env g₀).adj a := by
    intro a ha
    rw [hadj, mem_construirAdj] at ha
    rcases ha with ha | ha
    · exact h (a, a) ha rfl
    · exact h (a, a) ha rfl
  refine ⟨?_, hnoloop, ?_, ?_⟩
  · intro a b
    rw [show (construir_grafo env g₀).adj = construirAdj env.amistades
      from rfl, mem_construirAdj, mem_construirAdj]
    tauto
  · intro a
    have : (obtener_amigos env (construir_grafo env g₀) a).1 =
        (asegurarConstruido env (construir_grafo env g₀)).adj a := rfl
    rw [this, asegurar_de_construido env (construir_flag env g₀)]
    exact hnoloop a
  · intro a maxd
    rw [distancia_fst, if_pos rfl]

/-- Witness for C8 at a concrete store with distinct-endpoint edges. -/
theorem construir_grafo_simetrico_witness :
    (1 ∈ (construir_grafo entornoLineal grafoVacio).adj 0 ↔
      0 ∈ (construir_grafo entornoLineal grafoVacio).adj 1) ∧
    (distancia_entre_usuarios entornoLineal
      (construir_grafo entornoLineal grafoVacio) 2 2 5).1 = 0 :=
  ⟨(construir_grafo_simetrico entornoLineal grafoVacio (by decide)).1 0 1,
   (construir_grafo_simetrico entornoLineal grafoVacio
     (by decide)).2.2.2 2 5⟩

/-- C10: on a built graph, the query operations obtener_amigos,
bfs_niveles, amigos_en_comun and distancia_entre_usuarios return the object
state unchanged for every input (the code reads the adjacency defaultdict
only through .get with an empty-set default, never inserting a key), and
looking up an id that is not a key yields the empty set. -/
theorem consultas_sin_efectos (env : Entorno) (g₀ : GrafoSocial) :
    (∀ u, (obtener_amigos env (construir_grafo env g₀) u).2 =
      construir_grafo env g₀) ∧
    (∀ u k, (bfs_niveles env (construir_grafo env g₀) u k).2 =
      construir_grafo env g₀) ∧
    (∀ a b, (amigos_en_comun env (construir_grafo env g₀) a b).2 =
      construir_grafo env g₀) ∧
    (∀ a b maxd,
      (distancia_entre_usuarios env (construir_grafo env g₀) a b maxd).2 =
        construir_grafo env g₀) ∧
    (∀ u, u ∉ (construir_grafo env g₀).keys →
      (obtener_amigos env (construir_grafo env g₀) u).1 = ∅) := by
  have hfix := asegurar_de_construido env (construir_flag env g₀)
  refine ⟨?_, ?_, ?_, ?_, ?_⟩
  · intro u
    show asegurarConstruido env (construir_grafo env g₀) = _
    exact hfix
  · intro u k
    show asegurarConstruido env (construir_grafo env g₀) = _
    exact hfix
  · intro a b
    show asegurarConstruido env (construir_grafo env g₀) = _
    exact hfix
  · intro a b maxd
    rw [distancia_snd]
    exact hfix
  · intro u hu
    show (asegurarConstruido env (construir_grafo env g₀)).adj u = ∅
    rw [hfix]
    apply Finset.eq_empty_iff_forall_not_mem.2
    intro b hb
    have hadj : (construir_grafo env g₀).adj = construirAdj env.amistades :=
      rfl
    rw [hadj, mem_construirAdj] at hb
    apply hu
    show u ∈ (env.users.map Prod.fst).toFinset ∪
      (env.amistades.map Prod.fst).toFinset ∪
      (env.amistades.map Prod.snd).toFinset
    rcases hb with hb | hb
    · apply Finset.mem_union_left
      apply Finset.mem_union_right
      simp only [List.mem_toFinset, List.mem_map]
      exact ⟨(u, b), hb, rfl⟩
    · apply Finset.mem_union_right
      simp only [List.mem_toFinset, List.mem_map]
      exact ⟨(b, u), hb, rfl⟩

/-- Witness for C10 at a concrete store: id 0 is not a key, its neighbor
query returns the empty set, and the BFS query leaves the state intact. -/
theorem consultas_sin_efectos_witness :
    (obtener_amigos entornoSinOrigen
      (construir_grafo entornoSinOrigen grafoVacio) 0).1 = ∅ ∧
    (bfs_niveles entornoSinOrigen
      (construir_grafo entornoSinOrigen grafoVacio) 0 4).2 =
      construir_grafo entornoSinOrigen grafoVacio :=
  ⟨(consultas_sin_efectos entornoSinOrigen grafoVacio).2.2.2.2 0
    (by decide),
   (consultas_sin_efectos entornoSinOrigen grafoVacio).2.1 0 4⟩

end RedSocial

namespace RedSocial

theorem mem_listaAscMultiset (s : Multiset Nat) (a : Nat) :
    a ∈ listaAscMultiset s ↔ a ∈ s := by
  refine Quotient.inductionOn s ?_
  intro l
  show a ∈ l.insertionSort (· ≤ ·) ↔ _
  rw [(l.perm_insertionSort (· ≤ ·)).mem_iff]
  simp

theorem mem_listaAsc (s : Finset Nat) (a : Nat) :
    a ∈ listaAsc s ↔ a ∈ s := by
  rw [listaAsc, mem_listaAscMultiset]
  exact Finset.mem_def.symm

theorem mem_ordenar {l : List Recomendacion} {r : Recomendacion} :
    r ∈ ordenarPorPuntuacion l ↔ r ∈ l :=
  (l.perm_insertionSort _).mem_iff

theorem pySlice_subconjunto {α : Type} (l : List α) (k : Int) :
    ∀ x ∈ pySlice l k, x ∈ l := by
  intro x hx
  unfold pySlice at hx
  split at hx <;> exact List.take_subset _ _ hx

theorem entrada_usuario {env : Entorno} {g : GrafoSocial} {u c : Nat}
    {r : Recomendacion}
    (h : entradaRecomendacion env g u c = some r) : r.usuario = c := by
  unfold entradaRecomendacion at h
  rcases hres : resolverNombre env c with _ | nombre
  · rw [hres] at h
    exact absurd h (by simp)
  · rw [hres] at h
    simp only [Option.some.injEq] at h
    rw [← h]

theorem obtener_recomendaciones_despliegue (env : Entorno) (u : Nat)
    (limite : Int) :
    obtener_recomendaciones env u limite =
      pySlice (ordenarPorPuntuacion ((listaAsc (candidatosFinales env
        (construir_grafo env grafoVacio).adj u limite)).filterMap
        (entradaRecomendacion env (construir_grafo env grafoVacio) u)))
        limite := rfl

theorem mem_recomendaciones {env : Entorno} {u : Nat} {limite : Int}
    {r : Recomendacion} (hr : r ∈ obtener_recomendaciones env u limite) :
    r.usuario ∈ candidatosFinales env
      (construir_grafo env grafoVacio).adj u limite := by
  rw [obtener_recomendaciones_despliegue] at hr
  have h1 := pySlice_subconjunto _ _ r hr
  rw [mem_ordenar] at h1
  rcases List.mem_filterMap.1 h1 with ⟨c, hc, hentry⟩
  rw [entrada_usuario hentry]
  exact (mem_listaAsc _ _).1 hc

theorem adj_subset_bola_uno {adj : Nat → Finset Nat} {u : Nat} :
    adj u ⊆ bola adj u 1 := by
  intro v hv
  rw [bola_succ]
  exact Finset.mem_union_right _ (mem_vecindario.2 ⟨u, by simp [bola], hv⟩)

theorem mem_candidatosBase {adj : Nat → Finset Nat} {u v : Nat}
    (h : v ∈ candidatosBase adj u) : v ≠ u ∧ v ∉ adj u := by
  have hlev : ∃ l, 2 ≤ l ∧ l ≤ 4 ∧ v ∈ nivelBFS adj u 4 l := by
    rcases Finset.mem_union.1 h with h | h
    · rcases Finset.mem_union.1 h with h | h
      · exact ⟨2, by omega, by omega, h⟩
      · exact ⟨3, by omega, by omega, h⟩
    · exact ⟨4, by omega, by omega, h⟩
  rcases hlev with ⟨l, hl2, hl4, hv⟩
  obtain ⟨m, rfl⟩ : ∃ m, l = m + 1 := ⟨l - 1, by omega⟩
  rw [nivelBFS, if_pos ⟨by omega, hl4⟩, (bfsEstado_spec adj u m).2] at hv
  rcases Finset.mem_sdiff.1 hv with ⟨_, hnot⟩
  constructor
  · intro hvu
    subst hvu
    exact hnot (origen_mem_bola m)
  · intro hvadj
    exact hnot (bola_mono (show 1 ≤ m by omega) (adj_subset_bola_uno hvadj))

theorem mem_candidatosAmpliados {env : Entorno} {adj : Nat → Finset Nat}
    {u v : Nat} {limite : Int}
    (h : v ∈ candidatosAmpliados env adj u limite) :
    v ≠ u ∧ v ∉ adj u := by
  simp only [candidatosAmpliados] at h
  by_cases hc : ((candidatosBase adj u).card : Int) < limite
  · rw [if_pos hc] at h
    rcases Finset.mem_union.1 h with h | h
    · exact mem_candidatosBase h
    · rcases Finset.mem_sdiff.1 h with ⟨h', _⟩
      rcases Finset.mem_sdiff.1 h' with ⟨h'', hvu⟩
      rcases Finset.mem_sdiff.1 h'' with ⟨_, hvadj⟩
      exact ⟨by simpa using hvu, hvadj⟩
  · rw [if_neg hc] at h
    exact mem_candidatosBase h

theorem mem_candidatosFinales {env : Entorno} {adj : Nat → Finset Nat}
    {u v : Nat} {limite : Int}
    (h : v ∈ candidatosFinales env adj u limite) :
    v ∈ candidatosAmpliados env adj u limite ∧
    v ∉ solicitudesEnviadas env u ∧ v ∉ solicitudesRecibidas env u := by
  simp only [candidatosFinales] at h
  rcases Finset.mem_sdiff.1 h with ⟨h', h2⟩
  rcases Finset.mem_sdiff.1 h' with ⟨h1, h3⟩
  exact ⟨h1, h3, h2⟩

theorem mem_solicitudesEnviadas {env : Entorno} {u v : Nat} :
    v ∈ solicitudesEnviadas env u ↔
      ∃ s ∈ env.solicitudes, s.de = u ∧ s.estado = Estado.pendiente ∧
        s.para = v := by
  simp only [solicitudesEnviadas, Finset.mem_image, Finset.mem_filter,
    List.mem_toFinset]
  constructor
  · rintro ⟨s, ⟨hs, hde, hp⟩, hv⟩
    exact ⟨s, hs, hde, hp, hv⟩
  · rintro ⟨s, hs, hde, hp, hv⟩
    exact ⟨s, ⟨hs, hde, hp⟩, hv⟩

theorem mem_solicitudesRecibidas {env : Entorno} {u v : Nat} :
    v ∈ solicitudesRecibidas env u ↔
      ∃ s ∈ env.solicitudes, s.para = u ∧ s.estado = Estado.pendiente ∧
        s.de = v := by
  simp only [solicitudesRecibidas, Finset.mem_image, Finset.mem_filter,
    List.mem_toFinset]
  constructor
  · rintro ⟨s, ⟨hs, hpara, hp⟩, hv⟩
    exact ⟨s, hs, hpara, hp, hv⟩
  · rintro ⟨s, hs, hpara, hp, hv⟩
    exact ⟨s, ⟨hs, hpara, hp⟩, hv⟩

/-- C2: the recommendation list never contains the user, any direct friend
of the user, or any candidate with a pending friendship request to or from
the user in either direction. -/
theorem recomendaciones_exclusiones (env : Entorno) (u : Nat)
    (limite : Int) :
    ∀ r ∈ obtener_recomendaciones env u limite,
      r.usuario ≠ u ∧
      r.usuario ∉ (obtener_amigos env (construir_grafo env grafoVacio) u).1 ∧
      (∀ s ∈ env.solicitudes, s.estado = Estado.pendiente →
        ¬(s.de = u ∧ s.para = r.usuario) ∧
        ¬(s.para = u ∧ s.de = r.usuario)) := by
  intro r hr
  have hc := mem_recomendaciones hr
  rcases mem_candidatosFinales hc with ⟨hamp, henv, hrec⟩
  rcases mem_candidatosAmpliados hamp with ⟨hne, hnadj⟩
  refine ⟨hne, ?_, ?_⟩
  · have heq : (obtener_amigos env (construir_grafo env grafoVacio) u).1 =
        (construir_grafo env grafoVacio).adj u := by
      show (asegurarConstruido env (construir_grafo env grafoVacio)).adj u
        = _
      rw [asegurar_de_construido env (construir_flag env grafoVacio)]
    rw [heq]
    exact hnadj
  · intro s hs hpend
    constructor
    · rintro ⟨hde, hpara⟩
      exact henv (mem_solicitudesEnviadas.2 ⟨s, hs, hde, hpend, hpara⟩)
    · rintro ⟨hpara, hde⟩
      exact hrec (mem_solicitudesRecibidas.2 ⟨s, hs, hpara, hpend, hde⟩)

/-- Witness for C2: in the 3-user line, the single recommendation for user
0 (user 2, score 15) is not user 0, not a direct friend, and has no pending
requests. -/
theorem recomendaciones_exclusiones_witness :
    (⟨2, "u2", 15, 1, ["u1"], 2⟩ : Recomendacion).usuario ≠ 0 ∧
    (⟨2, "u2", 15, 1, ["u1"], 2⟩ : Recomendacion).usuario ∉
      (obtener_amigos entornoLineal
        (construir_grafo entornoLineal grafoVacio) 0).1 :=
  ⟨(recomendaciones_exclusiones entornoLineal 0 10
      ⟨2, "u2", 15, 1, ["u1"], 2⟩ (by decide)).1,
   (recomendaciones_exclusiones entornoLineal 0 10
      ⟨2, "u2", 15, 1, ["u1"], 2⟩ (by decide)).2.1⟩

end RedSocial

namespace RedSocial

/-- C6 (amended): for every nonnegative limit the recommendation list has
at most limit entries (and limit 0 gives the empty list); for a NEGATIVE
limit the Python slice recomendaciones[:limite] drops the last -limite
entries instead of returning an empty list, so the result can be nonempty
(see the counterexample). -/
theorem recomendaciones_acotadas (env : Entorno) (u : Nat) (limite : Int)
    (h : 0 ≤ limite) :
    ((obtener_recomendaciones env u limite).length : Int) ≤ limite := by
  rw [obtener_recomendaciones_despliegue, pySlice, if_pos h]
  calc ((List.take limite.toNat _).length : Int)
      ≤ (limite.toNat : Int) := by
        exact_mod_cast List.length_take_le _ _
    _ = limite := Int.toNat_of_nonneg h

/-- C6 counterexample: with limit -1 and two scored candidates, the slice
with a negative bound keeps one entry, so the list is neither empty nor of
length at most -1. -/
theorem recomendaciones_acotadas_cex :
    (obtener_recomendaciones entornoEstrella 0 (-1)).length = 1 ∧
    obtener_recomendaciones entornoEstrella 0 (-1) ≠ [] ∧
    ¬(((obtener_recomendaciones entornoEstrella 0 (-1)).length : Int) ≤
      -1) := by
  exact ⟨by decide, by decide, by decide⟩

/-- Witness for the amended C6 at a concrete input: limit 2 bounds the
list. -/
theorem recomendaciones_acotadas_witness :
    ((obtener_recomendaciones entornoEstrella 0 2).length : Int) ≤ 2 :=
  recomendaciones_acotadas entornoEstrella 0 2 (by decide)

/-- C7: the widening step of obtener_recomendaciones: a node is in the
(pre-pending-filter) pool iff it is in the union of BFS levels 2-4, or the
union has fewer than limite elements and the node is any known user other
than the user itself and its direct friends; when the union already has at
least limite elements no widening occurs; the pending-request exclusion is
applied only after the widening, yielding the final pool from which every
returned recommendation is drawn. -/
theorem ampliacion_de_candidatos (env : Entorno) (u : Nat) (limite : Int) :
    (∀ v, v ∈ candidatosAmpliados env
        (construir_grafo env grafoVacio).adj u limite ↔
      (v ∈ candidatosBase (construir_grafo env grafoVacio).adj u ∨
        (((candidatosBase (construir_grafo env grafoVacio).adj u).card :
            Int) < limite ∧
          v ∈ todosUsuarios env ∧
          v ∉ (construir_grafo env grafoVacio).adj u ∧ v ≠ u))) ∧
    (limite ≤ ((candidatosBase (construir_grafo env grafoVacio).adj u).card
        : Int) →
      candidatosAmpliados env (construir_grafo env grafoVacio).adj u limite
        = candidatosBase (construir_grafo env grafoVacio).adj u) ∧
    (∀ v, v ∈ candidatosFinales env
        (construir_grafo env grafoVacio).adj u limite ↔
      (v ∈ candidatosAmpliados env
          (construir_grafo env grafoVacio).adj u limite ∧
        v ∉ solicitudesEnviadas env u ∧ v ∉ solicitudesRecibidas env u)) ∧
    (∀ r ∈ obtener_recomendaciones env u limite,
      r.usuario ∈ candidatosFinales env
        (construir_grafo env grafoVacio).adj u limite) := by
  refine ⟨?_, ?_, ?_, ?_⟩
  · intro v
    simp only [candidatosAmpliados]
    by_cases hc : ((candidatosBase (construir_grafo env grafoVacio).adj
        u).card : Int) < limite
    · rw [if_pos hc]
      constructor
      · intro h
        rcases Finset.mem_union.1 h with h | h
        · exact Or.inl h
        · rcases Finset.mem_sdiff.1 h with ⟨h', _⟩
          rcases Finset.mem_sdiff.1 h' with ⟨h'', hvu⟩
          rcases Finset.mem_sdiff.1 h'' with ⟨ht, hvadj⟩
          exact Or.inr ⟨hc, ht, hvadj, by simpa using hvu⟩
      · intro h
        rcases h with h | ⟨_, ht, hvadj, hvu⟩
        · exact Finset.mem_union_left _ h
        · by_cases hb : v ∈ candidatosBase
              (construir_grafo env grafoVacio).adj u
          · exact Finset.mem_union_left _ hb
          · refine Finset.mem_union_right _ ?_
            refine Finset.mem_sdiff.2 ⟨?_, hb⟩
            refine Finset.mem_sdiff.2 ⟨?_, by simpa using hvu⟩
            exact Finset.mem_sdiff.2 ⟨ht, hvadj⟩
    · rw [if_neg hc]
      constructor
      · intro h
        exact Or.inl h
      · intro h
        rcases h with h | ⟨hlt, _⟩
        · exact h
        · exact absurd hlt hc
  · intro hle
    simp only [candidatosAmpliados]
    rw [if_neg (not_lt.2 hle)]
  · intro v
    simp only [candidatosFinales]
    constructor
    · intro h
      rcases Finset.mem_sdiff.1 h with ⟨h', h2⟩
      rcases Finset.mem_sdiff.1 h' with ⟨h1, h3⟩
      exact ⟨h1, h3, h2⟩
    · rintro ⟨h1, h3, h2⟩
      exact Finset.mem_sdiff.2 ⟨Finset.mem_sdiff.2 ⟨h1, h3⟩, h2⟩
  · intro r hr
    exact mem_recomendaciones hr

/-- Witness for C7 at a concrete input: for user 0 in the 3-user line with
limit 1, the single level-2 candidate already fills the quota, so the pool
is not widened. -/
theorem ampliacion_de_candidatos_witness :
    candidatosAmpliados entornoLineal
      (construir_grafo entornoLineal grafoVacio).adj 0 1 =
      candidatosBase (construir_grafo entornoLineal grafoVacio).adj 0 :=
  (ampliacion_de_candidatos entornoLineal 0 1).2.1 (by decide)

end RedSocial

namespace RedSocial

theorem adj_ausente {env : Entorno} {u : Nat}
    (h2 : ∀ p ∈ env.amistades, p.1 ≠ u ∧ p.2 ≠ u) :
    (construir_grafo env grafoVacio).adj u = ∅ := by
  apply Finset.eq_empty_iff_forall_not_mem.2
  intro b hb
  have hb' : b ∈ construirAdj env.amistades u := hb
  rw [mem_construirAdj] at hb'
  rcases hb' with hb' | hb'
  · exact (h2 _ hb').1 rfl
  · exact (h2 _ hb').2 rfl

theorem bola_aislado {adj : Nat → Finset Nat} {u : Nat} (h : adj u = ∅) :
    ∀ n, bola adj u n = bola adj u 0 := by
  have hsub : bola adj u (0 + 1) ⊆ bola adj u 0 := by
    rw [bola_succ]
    intro v hv
    rcases Finset.mem_union.1 hv with hv | hv
    · exact hv
    · rcases mem_vecindario.1 hv with ⟨x, hx, hvx⟩
      have hxu : x = u := by simpa [bola] using hx
      rw [hxu, h] at hvx
      exact absurd hvx (Finset.not_mem_empty v)
  intro n
  have := bola_stab hsub n
  simpa using this

theorem niveles_aislado {adj : Nat → Finset Nat} {u : Nat}
    (h : adj u = ∅) : ∀ k l, nivelBFS adj u k l = ∅ := by
  intro k l
  by_cases hb : 1 ≤ l ∧ l ≤ k
  · obtain ⟨m, rfl⟩ : ∃ m, l = m + 1 := ⟨l - 1, by omega⟩
    rw [nivelBFS, if_pos hb, (bfsEstado_spec adj u m).2,
      bola_aislado h (m + 1), bola_aislado h m]
    exact Finset.sdiff_self _
  · exact nivelBFS_fuera hb

theorem base_aislado {adj : Nat → Finset Nat} {u : Nat} (h : adj u = ∅) :
    candidatosBase adj u = ∅ := by
  rw [candidatosBase, niveles_aislado h, niveles_aislado h,
    niveles_aislado h]
  simp

theorem ampliados_aislado {env : Entorno} {u : Nat} {limite : Int}
    (h1 : u ∉ todosUsuarios env)
    (hadj : (construir_grafo env grafoVacio).adj u = ∅)
    (h3 : 0 < limite) :
    candidatosAmpliados env (construir_grafo env grafoVacio).adj u limite =
      todosUsuarios env := by
  have hbase := base_aislado hadj
  simp only [candidatosAmpliados, hbase, hadj]
  rw [if_pos (by simpa using h3)]
  ext v
  constructor
  · intro hv
    rcases Finset.mem_union.1 hv with hv | hv
    · exact absurd hv (Finset.not_mem_empty v)
    · rcases Finset.mem_sdiff.1 hv with ⟨hv', _⟩
      rcases Finset.mem_sdiff.1 hv' with ⟨hv'', _⟩
      exact (Finset.mem_sdiff.1 hv'').1
  · intro ht
    refine Finset.mem_union_right _ ?_
    refine Finset.mem_sdiff.2 ⟨?_, Finset.not_mem_empty v⟩
    refine Finset.mem_sdiff.2
      ⟨Finset.mem_sdiff.2 ⟨ht, Finset.not_mem_empty v⟩, ?_⟩
    intro hvu
    exact h1 ((Finset.mem_singleton.1 hvu) ▸ ht)

/-- C9 (amended): the engine performs NO not-found check for the origin:
when the origin user id is absent from the backing user store (and, by
referential integrity, from every friendship edge), the statistics call
still returns a complete record with zero direct friends, zero nodes at
levels 2-4, zero total reach and the true key count, and the recommendation
call still draws its candidates from the widened pool consisting of every
known user without a pending request, rather than aborting with no data. -/
theorem origen_ausente_sin_error (env : Entorno) (u : Nat) (limite : Int)
    (h1 : u ∉ todosUsuarios env)
    (h2 : ∀ p ∈ env.amistades, p.1 ≠ u ∧ p.2 ≠ u)
    (h3 : 0 < limite) :
    (obtener_estadisticas_grafo env u).amigos_directos = 0 ∧
    (obtener_estadisticas_grafo env u).nivel_2 = 0 ∧
    (obtener_estadisticas_grafo env u).nivel_3 = 0 ∧
    (obtener_estadisticas_grafo env u).nivel_4 = 0 ∧
    (obtener_estadisticas_grafo env u).alcance = 0 ∧
    (obtener_estadisticas_grafo env u).total_usuarios =
      (construir_grafo env grafoVacio).keys.card ∧
    (∀ v, v ∈ candidatosFinales env
        (construir_grafo env grafoVacio).adj u limite ↔
      (v ∈ todosUsuarios env ∧ v ∉ solicitudesEnviadas env u ∧
        v ∉ solicitudesRecibidas env u)) := by
  have hadj := adj_ausente h2
  have hniv := @niveles_aislado (construir_grafo env grafoVacio).adj u hadj
  refine ⟨?_, ?_, ?_, ?_, ?_, rfl, ?_⟩
  · show ((construir_grafo env grafoVacio).adj u).card = 0
    rw [hadj]
    rfl
  · show (nivelBFS (construir_grafo env grafoVacio).adj u 4 2).card = 0
    rw [hniv]
    rfl
  · show (nivelBFS (construir_grafo env grafoVacio).adj u 4 3).card = 0
    rw [hniv]
    rfl
  · show (nivelBFS (construir_grafo env grafoVacio).adj u 4 4).card = 0
    rw [hniv]
    rfl
  · show (nivelBFS (construir_grafo env grafoVacio).adj u 4 1).card +
      (nivelBFS (construir_grafo env grafoVacio).adj u 4 2).card +
      (nivelBFS (construir_grafo env grafoVacio).adj u 4 3).card +
      (nivelBFS (construir_grafo env grafoVacio).adj u 4 4).card = 0
    rw [hniv, hniv, hniv, hniv]
    rfl
  · intro v
    rw [show candidatosFinales env (construir_grafo env grafoVacio).adj u
        limite = (candidatosAmpliados env
          (construir_grafo env grafoVacio).adj u limite \
          solicitudesEnviadas env u) \ solicitudesRecibidas env u from rfl,
      ampliados_aislado h1 hadj h3]
    constructor
    · intro h
      rcases Finset.mem_sdiff.1 h with ⟨h', hr⟩
      rcases Finset.mem_sdiff.1 h' with ⟨ht, he⟩
      exact ⟨ht, he, hr⟩
    · rintro ⟨ht, he, hr⟩
      exact Finset.mem_sdiff.2 ⟨Finset.mem_sdiff.2 ⟨ht, he⟩, hr⟩

/-- C9 counterexample: id 0 is absent from the user store, yet the
recommendation call returns a full 2-entry list and the statistics call
returns a complete record: no not-found condition is reported and no
abort-with-no-data happens. -/
theorem origen_ausente_cex :
    (0 ∉ todosUsuarios entornoSinOrigen) ∧
    (obtener_recomendaciones entornoSinOrigen 0 5).length = 2 ∧
    obtener_recomendaciones entornoSinOrigen 0 5 ≠ [] ∧
    obtener_estadisticas_grafo entornoSinOrigen 0 =
      ⟨0, 0, 0, 0, 2, 0⟩ := by
  exact ⟨by decide, by decide, by decide, by decide⟩

/-- Witness for the amended C9 at a concrete input: missing origin 0 gets
zero-neighborhood statistics and the widened candidate pool. -/
theorem origen_ausente_sin_error_witness :
    (obtener_estadisticas_grafo entornoSinOrigen 0).amigos_directos = 0 ∧
    (obtener_estadisticas_grafo entornoSinOrigen 0).alcance = 0 ∧
    (1 ∈ candidatosFinales entornoSinOrigen
        (construir_grafo entornoSinOrigen grafoVacio).adj 0 5 ↔
      (1 ∈ todosUsuarios entornoSinOrigen ∧
        1 ∉ solicitudesEnviadas entornoSinOrigen 0 ∧
        1 ∉ solicitudesRecibidas entornoSinOrigen 0)) :=
  ⟨(origen_ausente_sin_error entornoSinOrigen 0 5 (by decide) (by decide)
      (by decide)).1,
   (origen_ausente_sin_error entornoSinOrigen 0 5 (by decide) (by decide)
      (by decide)).2.2.2.2.1,
   (origen_ausente_sin_error entornoSinOrigen 0 5 (by decide) (by decide)
      (by decide)).2.2.2.2.2.2 1⟩

end RedSocial
